import Mathlib

/-!
Shallow embedding of the poker equity simulator
(`src/simulation/equity_simulator.cpp`) and verification of the
claims about its hand evaluator, best-of-7 selector, deck builder,
hand parser and Monte Carlo equity sampler.

Machine `int` values here are modelled as `Int` (all quantities involved
are tiny, far from any overflow), the C++ `double` equity is modelled as
`ℚ` (the computed quantity `(wins + 0.5*ties)/total` is a ratio of small
integers; interval claims are preserved by the monotone rounding of IEEE
division whose endpoints 0 and 1 are exactly representable), and the
`std::mt19937` shuffle is modelled by universally quantifying over the
permutation of the deck used in each trial.
-/

namespace EquitySim

/-- A playing card, mirroring `struct Card { char rank; char suit; }`. -/
structure Card where
  rank : Char
  suit : Char
deriving DecidableEq, Repr

/-- `const string RANKS = "AKQJT98765432";` -/
def RANKS : List Char := ['A', 'K', 'Q', 'J', 'T', '9', '8', '7', '6', '5', '4', '3', '2']

/-- `const string SUITS = "hdcs";` -/
def SUITS : List Char := ['h', 'd', 'c', 's']

/-- `RANK_VALUES`: map rank characters to numeric values (A high = 14).
`RANK_VALUES.at(c)` throws for a character outside the map; we model the
total function with value `0` on such characters (no claim depends on the
value at invalid characters). -/
def rankValue (c : Char) : Int :=
  match c with
  | 'A' => 14 | 'K' => 13 | 'Q' => 12 | 'J' => 11 | 'T' => 10
  | '9' => 9 | '8' => 8 | '7' => 7 | '6' => 6 | '5' => 5
  | '4' => 4 | '3' => 3 | '2' => 2
  | _ => 0

/-- `parseHand`: a 2-character string is a pocket pair (suits `h`,`d`),
a 3-character string is two ranks plus a style character (`s` → both `h`,
anything else → `h`,`d`); any other length yields an empty hand.
The input string is modelled as its list of characters. -/
def parseHand (handStr : List Char) : List Card :=
  if handStr.length = 2 then
    [⟨handStr.getD 0 ' ', 'h'⟩, ⟨handStr.getD 1 ' ', 'd'⟩]
  else if handStr.length = 3 then
    let r1 := handStr.getD 0 ' '
    let r2 := handStr.getD 1 ' '
    let style := handStr.getD 2 ' '
    if style.toLower = 's' then [⟨r1, 'h'⟩, ⟨r2, 'h'⟩]
    else [⟨r1, 'h'⟩, ⟨r2, 'd'⟩]
  else []

/-- The 52-card universe in the iteration order of `buildDeck`'s nested
loops (`for r in RANKS, for s in SUITS`). -/
def fullDeck : List Card := RANKS.flatMap fun r => SUITS.map fun s => ⟨r, s⟩

/-- `buildDeck`: the nested loop pushes `⟨r,s⟩` exactly when it is not
found in `exclude`, i.e. it filters the 52-card universe. -/
def buildDeck (exclude : List Card) : List Card :=
  fullDeck.filter fun c => decide (c ∉ exclude)

/-- A card is valid when it is one of the 52 rank–suit combinations. -/
def validCard (c : Card) : Prop := c ∈ fullDeck

instance (c : Card) : Decidable (validCard c) := by
  unfold validCard; infer_instance

/-- A valid hero hand: exactly two distinct valid cards. -/
def validHand (h : List Card) : Prop :=
  h.length = 2 ∧ h.Nodup ∧ ∀ c ∈ h, validCard c

instance (h : List Card) : Decidable (validHand h) := by
  unfold validHand; infer_instance

/-- Descending sort of the rank values (`sort(values.begin(), values.end(),
greater<int>())`). -/
def sortDesc (l : List Int) : List Int := l.insertionSort (· ≥ ·)

/-- Ascending sort followed by removal of duplicates (`sort` then
`unique`+`erase`), producing `uniqueVals`. -/
def sortAscDedup (l : List Int) : List Int := (l.insertionSort (· ≤ ·)).dedup

/-- The straight scan: for each window `u[i] .. u[i+4]` of the sorted
unique values, record a straight with high card `u[i+4]` when
`u[i+4] - u[i] == 4`; the last matching window wins (the loop does not
break). -/
def straightScan (u : List Int) : Bool × Int :=
  if 5 ≤ u.length then
    (List.range (u.length - 4)).foldl
      (fun acc i => if u.getD (i + 4) 0 - u.getD i 0 = 4 then (true, u.getD (i + 4) 0) else acc)
      (false, 0)
  else (false, 0)

/-- The straight test including the ace-low wheel special case:
if no window matched and `{14,2,3,4,5} ⊆ u`, it is a straight with
high card 5. -/
def straightInfo (u : List Int) : Bool × Int :=
  let s := straightScan u
  if ¬ s.1 ∧ 14 ∈ u ∧ 2 ∈ u ∧ 3 ∈ u ∧ 4 ∈ u ∧ 5 ∈ u then (true, 5) else s

/-- The comparator used to sort `countPairs`: count descending, then
value descending (the strict C++ comparator induces this total preorder;
sorting with it yields the unique sorted permutation since all entries
are distinct). -/
def cmpCnt (a b : Int × Int) : Prop := b.1 < a.1 ∨ (a.1 = b.1 ∧ b.2 ≤ a.2)

instance : DecidableRel cmpCnt := fun a b => by
  unfold cmpCnt; infer_instance

instance : IsTotal (Int × Int) cmpCnt := by
  constructor
  intro a b
  unfold cmpCnt
  rcases lt_trichotomy a.1 b.1 with h | h | h
  · exact Or.inr (Or.inl h)
  · rcases le_total a.2 b.2 with h2 | h2
    · exact Or.inr (Or.inr ⟨h.symm, h2⟩)
    · exact Or.inl (Or.inr ⟨h, h2⟩)
  · exact Or.inl (Or.inl h)

instance : IsTrans (Int × Int) cmpCnt := by
  constructor
  intro a b c hab hbc
  unfold cmpCnt at *
  rcases hab with h1 | ⟨h1, h1'⟩ <;> rcases hbc with h2 | ⟨h2, h2'⟩
  · exact Or.inl (h2.trans h1)
  · exact Or.inl (h2 ▸ h1)
  · exact Or.inl (h1 ▸ h2)
  · exact Or.inr ⟨h1.trans h2, h2'.trans h1'⟩

instance : IsAntisymm (Int × Int) cmpCnt := by
  constructor
  intro a b hab hba
  unfold cmpCnt at *
  rcases hab with h1 | ⟨h1, h1'⟩
  · rcases hba with h2 | ⟨h2, h2'⟩
    · exact absurd h1 (lt_asymm h2)
    · exact absurd h1 (h2 ▸ lt_irrefl _)
  · rcases hba with h2 | ⟨h2, h2'⟩
    · exact absurd h2 (h1 ▸ lt_irrefl _)
    · exact Prod.ext h1 (le_antisymm h2' h1')

/-- `countPairs`: the frequency map iterated in ascending key order gives
one `(count, value)` pair per distinct value, then sorted by count
descending, ties by value descending. -/
def countPairs (values : List Int) : List (Int × Int) :=
  ((sortAscDedup values).map fun v => ((values.count v : Int), v)).insertionSort cmpCnt

/-- The category/tiebreak composition of `evaluate5CardHand`, taking the
descending-sorted rank values and the flush flag.  `countPairs[0]` and
`countPairs[1]` are modelled with `getD` (the C++ accesses are always in
bounds for nonempty input). -/
def evalBody (values : List Int) (isFlush : Bool) : List Int :=
  let st := straightInfo (sortAscDedup values)
  let cp := countPairs values
  let cp0 := cp.getD 0 (0, 0)
  let cp1 := cp.getD 1 (0, 0)
  if st.1 ∧ isFlush then
    [9, st.2]
  else if cp0.1 = 4 then
    [8, cp0.2] ++ (values.filter fun v => decide (v ≠ cp0.2)).take 1
  else if cp0.1 = 3 ∧ 1 < cp.length ∧ 2 ≤ cp1.1 then
    [7, cp0.2, cp1.2]
  else if isFlush then
    6 :: values
  else if st.1 then
    [5, st.2]
  else if cp0.1 = 3 then
    [4, cp0.2] ++ (values.filter fun v => decide (v ≠ cp0.2))
  else if cp0.1 = 2 ∧ 2 ≤ cp.length ∧ cp1.1 = 2 then
    [3, cp0.2, cp1.2] ++ (values.filter fun v => decide (v ≠ cp0.2 ∧ v ≠ cp1.2)).take 1
  else if cp0.1 = 2 then
    [2, cp0.2] ++ (values.filter fun v => decide (v ≠ cp0.2))
  else
    1 :: values

/-- The flush test: all 5 suits equal the first one
(`count(suits.begin(), suits.end(), suits[0]) == 5`). -/
def isFlushB (suits : List Char) : Bool :=
  decide (suits.count (suits.headD ' ') = 5)

/-- All suits in the list are identical (to the first one). -/
def suitsAllEqual (suits : List Char) : Prop := ∀ s ∈ suits, s = suits.headD ' '

instance (l : List Char) : Decidable (suitsAllEqual l) := by
  unfold suitsAllEqual; infer_instance

/-- `evaluate5CardHand`: extract rank values and suits, sort the values
descending, test the flush, and compose the hand value.  After the sort,
the suits are only consulted for the flush flag, so the body factors
through `evalBody`. -/
def evaluate5CardHand (cards : List Card) : List Int :=
  evalBody (sortDesc (cards.map fun c => rankValue c.rank))
    (isFlushB (cards.map fun c => c.suit))

/-- The number of elements of a `handValue` as a function of its leading
category element: categories 9 and 5 carry one tiebreak, 8 and 7 two,
4 and 3 three, 2 four, and 6 and 1 five. -/
def lenOfCat (c : Int) : Nat :=
  if c = 9 ∨ c = 5 then 2
  else if c = 8 ∨ c = 7 then 3
  else if c = 4 ∨ c = 3 then 4
  else if c = 2 then 5
  else 6

/-- Lexicographic strict comparison of `vector<int>`
(`lexicographical_compare`): a proper prefix is smaller. -/
def lexLt : List Int → List Int → Bool
  | [], [] => false
  | [], _ :: _ => true
  | _ :: _, [] => false
  | a :: as, b :: bs => if a < b then true else if b < a then false else lexLt as bs

/-- `isBetterHand(h1, h2)` = `lexicographical_compare(h2.begin(), h2.end(),
h1.begin(), h1.end())`, i.e. `h2 < h1`. -/
def isBetterHand (h1 h2 : List Int) : Bool := lexLt h2 h1

instance : Inhabited Card := ⟨⟨' ', ' '⟩⟩

/-- The update step of `bestHandValue`'s running maximum:
`if (first || isBetterHand(val, bestVal)) bestVal = val`. -/
def pickBetter (acc : Option (List Int)) (val : List Int) : Option (List Int) :=
  match acc with
  | none => some val
  | some best => if isBetterHand val best then some val else some best

/-- The 21 index combinations enumerated by the five nested loops
`i < 3, i < j < 4, j < k < 5, k < l < 6, l < m < 7`. -/
def combos5of7 : List (List Nat) :=
  (List.range' 0 3).flatMap fun i =>
  (List.range' (i + 1) (3 - i)).flatMap fun j =>
  (List.range' (j + 1) (4 - j)).flatMap fun k =>
  (List.range' (k + 1) (5 - k)).flatMap fun l =>
  (List.range' (l + 1) (6 - l)).map fun m => [i, j, k, l, m]

/-- `bestHandValue`: evaluate each of the 21 five-card selections and keep
the running maximum under `isBetterHand`. -/
def bestHandValue (sevenCards : List Card) : List Int :=
  (combos5of7.foldl
    (fun acc idxs => pickBetter acc (evaluate5CardHand (idxs.map fun t => sevenCards.getD t default)))
    none).getD []

/-- Outcome of a single trial. -/
inductive Outcome where
  | win
  | tie
  | loss
deriving DecidableEq, Repr

/-- Hero's hand value in a trial: hero's two cards plus the board
(cards 2..6 of the shuffled deck). -/
def heroValOf (heroHand deck : List Card) : List Int :=
  bestHandValue (heroHand ++ (deck.drop 2).take 5)

/-- Opponent's hand value in a trial: the first two shuffled cards plus
the board. -/
def oppValOf (deck : List Card) : List Int :=
  bestHandValue (deck.take 2 ++ (deck.drop 2).take 5)

/-- One trial of `EquitySimulator::simulate`, given the shuffled deck:
`heroVal > oppVal` is a win, equality a tie, anything else a loss
(`vector` comparison is lexicographic). -/
def trialOutcome (heroHand deck : List Card) : Outcome :=
  if lexLt (oppValOf deck) (heroValOf heroHand deck) then .win
  else if heroValOf heroHand deck = oppValOf deck then .tie
  else .loss

/-- `EquitySimulator::simulate`, with the random shuffles of each trial
supplied as arguments: tally outcomes over the trials and return
`(wins + 0.5*ties) / total`. -/
def simulate (heroHand : List Card) (shuffles : List (List Card)) : ℚ :=
  let outcomes := shuffles.map (trialOutcome heroHand)
  let wins := outcomes.count .win
  let ties := outcomes.count .tie
  let losses := outcomes.count .loss
  let total := wins + ties + losses
  ((wins : ℚ) + (1 / 2) * (ties : ℚ)) / (total : ℚ)

example : evaluate5CardHand
    [⟨'A', 'h'⟩, ⟨'2', 'd'⟩, ⟨'3', 'h'⟩, ⟨'4', 'h'⟩, ⟨'5', 'h'⟩] = [5, 5] := by decide

example : evaluate5CardHand
    [⟨'A', 'h'⟩, ⟨'A', 'd'⟩, ⟨'K', 'h'⟩, ⟨'Q', 'h'⟩, ⟨'J', 'h'⟩] = [2, 14, 13, 12, 11] := by decide

example : evaluate5CardHand
    [⟨'2', 'h'⟩, ⟨'2', 'd'⟩, ⟨'2', 'c'⟩, ⟨'5', 'h'⟩, ⟨'5', 'd'⟩] = [7, 2, 5] := by decide

example : combos5of7.length = 21 := by decide

example : bestHandValue
    [⟨'A', 'h'⟩, ⟨'K', 'h'⟩, ⟨'Q', 'h'⟩, ⟨'J', 'h'⟩, ⟨'T', 'h'⟩, ⟨'2', 'd'⟩, ⟨'7', 'c'⟩]
    = [9, 14] := by decide

example : (buildDeck [⟨'A', 'h'⟩, ⟨'A', 'd'⟩]).length = 50 := by decide

/-! ### Sorting infrastructure -/

theorem sortDesc_perm (l : List Int) : (sortDesc l).Perm l :=
  List.perm_insertionSort _ l

theorem sortDesc_sorted (l : List Int) : (sortDesc l).Sorted (· ≥ ·) :=
  List.sorted_insertionSort _ l

theorem sortDesc_eq {l m : List Int} (h : l.Perm m) (hm : m.Sorted (· ≥ ·)) :
    sortDesc l = m :=
  List.eq_of_perm_of_sorted ((sortDesc_perm l).trans h) (sortDesc_sorted l) hm

theorem sortDesc_length (l : List Int) : (sortDesc l).length = l.length :=
  (sortDesc_perm l).length_eq

theorem mem_sortAscDedup {a : Int} {l : List Int} : a ∈ sortAscDedup l ↔ a ∈ l := by
  unfold sortAscDedup
  rw [List.mem_dedup, List.mem_insertionSort]

theorem sortAscDedup_nodup (l : List Int) : (sortAscDedup l).Nodup :=
  List.nodup_dedup _

theorem sortAscDedup_sorted (l : List Int) : (sortAscDedup l).Sorted (· ≤ ·) :=
  (List.sorted_insertionSort _ l).sublist (List.dedup_sublist _)

theorem sortAscDedup_eq {l m : List Int} (hmem : ∀ a, a ∈ l ↔ a ∈ m)
    (hnd : m.Nodup) (hm : m.Sorted (· ≤ ·)) : sortAscDedup l = m := by
  refine List.eq_of_perm_of_sorted ?_ (sortAscDedup_sorted l) hm
  rw [List.perm_ext_iff_of_nodup (sortAscDedup_nodup l) hnd]
  intro a
  rw [mem_sortAscDedup, hmem]

theorem sortCnt_eq {l m : List (Int × Int)} (h : l.Perm m) (hm : m.Pairwise cmpCnt) :
    l.insertionSort cmpCnt = m :=
  List.eq_of_perm_of_sorted ((List.perm_insertionSort _ l).trans h) (List.sorted_insertionSort _ l) hm

theorem countPairs_perm (values : List Int) :
    (countPairs values).Perm ((sortAscDedup values).map fun v => ((values.count v : Int), v)) :=
  List.perm_insertionSort _ _

theorem countPairs_eq {values : List Int} {m : List (Int × Int)}
    (h : (((sortAscDedup values).map fun v => ((values.count v : Int), v))).Perm m)
    (hm : m.Pairwise cmpCnt) : countPairs values = m :=
  sortCnt_eq h hm

/-! ### Lexicographic order facts -/

theorem lexLt_irrefl (a : List Int) : lexLt a a = false := by
  induction a with
  | nil => rfl
  | cons x xs ih => simp [lexLt, ih]

theorem lexLt_cons_iff {a b : Int} {as bs : List Int} :
    lexLt (a :: as) (b :: bs) = true ↔ a < b ∨ (a = b ∧ lexLt as bs = true) := by
  simp only [lexLt]
  by_cases h : a < b
  · simp [h]
  · by_cases h2 : b < a
    · simp only [if_neg h, if_pos h2]
      constructor
      · intro hf
        exact absurd hf (by simp)
      · rintro (hlt | ⟨rfl, _⟩)
        · exact absurd hlt h
        · exact absurd h2 (lt_irrefl a)
    · have heq : a = b := le_antisymm (not_lt.mp h2) (not_lt.mp h)
      simp [h, h2, heq]

theorem lexLt_trans : ∀ {a b c : List Int},
    lexLt a b = true → lexLt b c = true → lexLt a c = true
  | [], [], _, h1, _ => by simp [lexLt] at h1
  | [], _ :: _, [], _, h2 => by simp [lexLt] at h2
  | [], _ :: _, _ :: _, _, _ => rfl
  | _ :: _, [], _, h1, _ => by simp [lexLt] at h1
  | _ :: _, _ :: _, [], _, h2 => by simp [lexLt] at h2
  | a :: as, b :: bs, c :: cs, h1, h2 => by
    rw [lexLt_cons_iff] at h1 h2 ⊢
    rcases h1 with h1 | ⟨rfl, h1⟩
    · rcases h2 with h2 | ⟨rfl, h2⟩
      · exact Or.inl (h1.trans h2)
      · exact Or.inl h1
    · rcases h2 with h2 | ⟨rfl, h2⟩
      · exact Or.inl h2
      · exact Or.inr ⟨rfl, lexLt_trans h1 h2⟩

theorem lexLt_antisymm : ∀ {a b : List Int},
    lexLt a b = false → lexLt b a = false → a = b
  | [], [], _, _ => rfl
  | [], _ :: _, h1, _ => by simp [lexLt] at h1
  | _ :: _, [], _, h2 => by simp [lexLt] at h2
  | a :: as, b :: bs, h1, h2 => by
    rw [Bool.eq_false_iff, Ne, lexLt_cons_iff] at h1 h2
    push_neg at h1 h2
    obtain ⟨hab, h1r⟩ := h1
    obtain ⟨hba, h2r⟩ := h2
    have heq : a = b := le_antisymm hba hab
    subst heq
    have h1f : lexLt as bs = false := Bool.eq_false_iff.mpr (h1r rfl)
    have h2f : lexLt bs as = false := Bool.eq_false_iff.mpr (h2r rfl)
    rw [lexLt_antisymm h1f h2f]

theorem lexLt_false_of_false_of_false {a b c : List Int}
    (hab : lexLt a b = false) (hbc : lexLt b c = false) : lexLt a c = false := by
  cases hac : lexLt a c with
  | false => rfl
  | true =>
    cases hcb : lexLt c b with
    | false =>
      have : b = c := lexLt_antisymm hbc hcb
      subst this
      rw [hab] at hac
      exact hac.symm ▸ rfl
    | true =>
      have : lexLt a b = true := lexLt_trans hac hcb
      rw [hab] at this
      exact absurd this (by simp)

/-! ### The running maximum of the 21 evaluations -/

theorem foldl_pickBetter_some (vals : List (List Int)) (b : List Int) :
    ((vals.foldl pickBetter (some b)).getD [] = b ∨ (vals.foldl pickBetter (some b)).getD [] ∈ vals)
    ∧ lexLt ((vals.foldl pickBetter (some b)).getD []) b = false
    ∧ ∀ v ∈ vals, lexLt ((vals.foldl pickBetter (some b)).getD []) v = false := by
  induction vals generalizing b with
  | nil =>
    refine ⟨Or.inl rfl, lexLt_irrefl b, ?_⟩
    intro v hv
    exact absurd hv (List.not_mem_nil v)
  | cons v vs ih =>
    have hstep : (v :: vs).foldl pickBetter (some b)
        = vs.foldl pickBetter (if isBetterHand v b then some v else some b) := rfl
    by_cases h : isBetterHand v b = true
    · obtain ⟨hmem, hnb, hall⟩ := ih v
      rw [hstep, if_pos h]
      have hub : lexLt b v = true := h
      refine ⟨Or.inr ?_, ?_, ?_⟩
      · rcases hmem with h1 | h1
        · rw [h1]
          exact List.mem_cons_self v vs
        · exact List.mem_cons_of_mem v h1
      · cases hrb : lexLt ((vs.foldl pickBetter (some v)).getD []) b with
        | false => rfl
        | true =>
          have hcontra := lexLt_trans hrb hub
          rw [hnb] at hcontra
          exact absurd hcontra (by simp)
      · intro w hw
        rcases List.mem_cons.mp hw with rfl | hw'
        · exact hnb
        · exact hall w hw'
    · obtain ⟨hmem, hnb, hall⟩ := ih b
      rw [hstep, if_neg h]
      have hbv : lexLt b v = false := by
        cases hx : lexLt b v with
        | false => rfl
        | true => exact absurd hx h
      refine ⟨?_, hnb, ?_⟩
      · rcases hmem with h1 | h1
        · exact Or.inl h1
        · exact Or.inr (List.mem_cons_of_mem v h1)
      · intro w hw
        rcases List.mem_cons.mp hw with rfl | hw'
        · exact lexLt_false_of_false_of_false hnb hbv
        · exact hall w hw'

theorem foldl_pickBetter_none (vals : List (List Int)) (h : vals ≠ []) :
    ((vals.foldl pickBetter none).getD [] ∈ vals)
    ∧ ∀ v ∈ vals, lexLt ((vals.foldl pickBetter none).getD []) v = false := by
  match vals with
  | [] => exact absurd rfl h
  | v :: vs =>
    have hstep : (v :: vs).foldl pickBetter none = vs.foldl pickBetter (some v) := rfl
    obtain ⟨hmem, hnb, hall⟩ := foldl_pickBetter_some vs v
    rw [hstep]
    refine ⟨?_, ?_⟩
    · rcases hmem with h1 | h1
      · rw [h1]
        exact List.mem_cons_self v vs
      · exact List.mem_cons_of_mem v h1
    · intro w hw
      rcases List.mem_cons.mp hw with rfl | hw'
      · exact hnb
      · exact hall w hw'

theorem bestHandValue_mem_and_max (seven : List Card) :
    (∃ c ∈ combos5of7,
        bestHandValue seven = evaluate5CardHand (c.map fun t => seven.getD t default))
    ∧ ∀ c ∈ combos5of7,
        lexLt (bestHandValue seven)
          (evaluate5CardHand (c.map fun t => seven.getD t default)) = false := by
  have hne : (combos5of7.map fun idxs =>
      evaluate5CardHand (idxs.map fun t => seven.getD t default)) ≠ [] := by
    simp only [ne_eq, List.map_eq_nil_iff]
    decide
  have hfold : bestHandValue seven
      = ((combos5of7.map fun idxs =>
          evaluate5CardHand (idxs.map fun t => seven.getD t default)).foldl pickBetter none).getD [] := by
    unfold bestHandValue
    rw [List.foldl_map]
  obtain ⟨hmem, hall⟩ := foldl_pickBetter_none _ hne
  constructor
  · rw [hfold]
    obtain ⟨c, hc, hceq⟩ := List.mem_map.mp hmem
    exact ⟨c, hc, hceq.symm⟩
  · intro c hc
    rw [hfold]
    exact hall _ (List.mem_map_of_mem _ hc)

/-! ### Structure of the evaluator output -/

theorem evalBody_ne_nil (values : List Int) (fl : Bool) : evalBody values fl ≠ [] := by
  simp only [evalBody]
  split
  · simp
  · split
    · simp
    · split
      · simp
      · split
        · simp
        · split
          · simp
          · split
            · simp
            · split
              · simp
              · split
                · simp
                · simp

theorem eval_cons (cards : List Card) :
    ∃ t, evaluate5CardHand cards = ((evaluate5CardHand cards).headD 0) :: t := by
  cases h : evaluate5CardHand cards with
  | nil => exact absurd h (evalBody_ne_nil _ _)
  | cons x t => exact ⟨t, rfl⟩

theorem isFlushB_false {suits : List Char} (h5 : suits.length = 5)
    (h : ¬ suitsAllEqual suits) : isFlushB suits = false := by
  unfold isFlushB
  rw [decide_eq_false_iff_not]
  intro hcount
  apply h
  intro s hs
  have hall := List.count_eq_length.mp (by rw [hcount, h5])
  exact (hall s hs).symm

theorem evaluate_eq_of_perm {cards : List Card} {sorted : List Int}
    (hv : (cards.map fun c => rankValue c.rank).Perm sorted)
    (hs : sorted.Sorted (· ≥ ·))
    (hfl : isFlushB (cards.map fun c => c.suit) = false) :
    evaluate5CardHand cards = evalBody sorted false := by
  unfold evaluate5CardHand
  rw [sortDesc_eq hv hs, hfl]

theorem suits_length_of_five {cards : List Card} (h5 : cards.length = 5) :
    (cards.map fun c => c.suit).length = 5 := by
  rw [List.length_map]
  exact h5

/-- Claim C2: for two valid duplicate-free 5-card hands, if the first
hand's category (the leading element of its `evaluate5CardHand` value) is
strictly higher than the second's, then `isBetterHand` on the two hand
values returns `true`, regardless of the tiebreak ranks. -/
theorem isBetterHand_of_higher_category (cs1 cs2 : List Card)
    (h1len : cs1.length = 5) (h1nd : cs1.Nodup) (h1v : ∀ c ∈ cs1, validCard c)
    (h2len : cs2.length = 5) (h2nd : cs2.Nodup) (h2v : ∀ c ∈ cs2, validCard c)
    (hcat : (evaluate5CardHand cs2).headD 0 < (evaluate5CardHand cs1).headD 0) :
    isBetterHand (evaluate5CardHand cs1) (evaluate5CardHand cs2) = true := by
  obtain ⟨t1, e1⟩ := eval_cons cs1
  obtain ⟨t2, e2⟩ := eval_cons cs2
  unfold isBetterHand
  rw [e1, e2, lexLt_cons_iff]
  exact Or.inl hcat

/-- Witness for Claim C2: a straight flush (category 9) against four of a
kind (category 8). -/
theorem isBetterHand_of_higher_category_witness :
    ([(⟨'A', 'h'⟩ : Card), ⟨'K', 'h'⟩, ⟨'Q', 'h'⟩, ⟨'J', 'h'⟩, ⟨'T', 'h'⟩].length = 5
      ∧ [(⟨'A', 'h'⟩ : Card), ⟨'A', 'd'⟩, ⟨'A', 'c'⟩, ⟨'A', 's'⟩, ⟨'K', 'h'⟩].length = 5
      ∧ (evaluate5CardHand [⟨'A', 'h'⟩, ⟨'A', 'd'⟩, ⟨'A', 'c'⟩, ⟨'A', 's'⟩, ⟨'K', 'h'⟩]).headD 0
          < (evaluate5CardHand [⟨'A', 'h'⟩, ⟨'K', 'h'⟩, ⟨'Q', 'h'⟩, ⟨'J', 'h'⟩, ⟨'T', 'h'⟩]).headD 0)
    ∧ isBetterHand
        (evaluate5CardHand [⟨'A', 'h'⟩, ⟨'K', 'h'⟩, ⟨'Q', 'h'⟩, ⟨'J', 'h'⟩, ⟨'T', 'h'⟩])
        (evaluate5CardHand [⟨'A', 'h'⟩, ⟨'A', 'd'⟩, ⟨'A', 'c'⟩, ⟨'A', 's'⟩, ⟨'K', 'h'⟩]) = true :=
  ⟨⟨by decide, by decide, by decide⟩,
    isBetterHand_of_higher_category _ _ (by decide) (by decide) (by decide)
      (by decide) (by decide) (by decide) (by decide)⟩

/-- Claim C1: a 5-card hand whose ranks are exactly {A,2,3,4,5} and whose
suits are not all identical evaluates to category 5 (straight) with
straight-high tiebreak 5 (not 14), and its hand value compares strictly
below that of any six-high straight. -/
theorem wheel_straight_five_high (cards : List Card)
    (hperm : (cards.map fun c => c.rank).Perm ['A', '2', '3', '4', '5'])
    (hnd : cards.Nodup)
    (hfl : ¬ suitsAllEqual (cards.map fun c => c.suit)) :
    evaluate5CardHand cards = [5, 5]
    ∧ ∀ cards6 : List Card,
        (cards6.map fun c => c.rank).Perm ['6', '5', '4', '3', '2'] →
        cards6.Nodup →
        ¬ suitsAllEqual (cards6.map fun c => c.suit) →
        isBetterHand (evaluate5CardHand cards6) (evaluate5CardHand cards) = true := by
  have hlen : cards.length = 5 := by
    have := hperm.length_eq
    rwa [List.length_map] at this
  have hvals : (cards.map fun c => rankValue c.rank).Perm [14, 2, 3, 4, 5] := by
    have h1 := hperm.map rankValue
    rw [List.map_map] at h1
    exact h1
  have heval : evaluate5CardHand cards = evalBody [14, 5, 4, 3, 2] false :=
    evaluate_eq_of_perm (hvals.trans (by decide)) (by decide)
      (isFlushB_false (suits_length_of_five hlen) hfl)
  have hwheel : evaluate5CardHand cards = [5, 5] := by
    rw [heval]
    decide
  refine ⟨hwheel, ?_⟩
  intro cards6 hperm6 hnd6 hfl6
  have hlen6 : cards6.length = 5 := by
    have := hperm6.length_eq
    rwa [List.length_map] at this
  have hvals6 : (cards6.map fun c => rankValue c.rank).Perm [6, 5, 4, 3, 2] := by
    have h1 := hperm6.map rankValue
    rw [List.map_map] at h1
    exact h1
  have heval6 : evaluate5CardHand cards6 = evalBody [6, 5, 4, 3, 2] false :=
    evaluate_eq_of_perm hvals6 (by decide)
      (isFlushB_false (suits_length_of_five hlen6) hfl6)
  rw [heval6, hwheel]
  decide

/-- Witness for Claim C1: the concrete unsuited wheel A♥2♦3♥4♥5♥. -/
theorem wheel_straight_five_high_witness :
    (((([(⟨'A', 'h'⟩ : Card), ⟨'2', 'd'⟩, ⟨'3', 'h'⟩, ⟨'4', 'h'⟩, ⟨'5', 'h'⟩]).map
          fun c => c.rank).Perm ['A', '2', '3', '4', '5'])
      ∧ ¬ suitsAllEqual ([(⟨'A', 'h'⟩ : Card), ⟨'2', 'd'⟩, ⟨'3', 'h'⟩, ⟨'4', 'h'⟩, ⟨'5', 'h'⟩].map
          fun c => c.suit))
    ∧ evaluate5CardHand [⟨'A', 'h'⟩, ⟨'2', 'd'⟩, ⟨'3', 'h'⟩, ⟨'4', 'h'⟩, ⟨'5', 'h'⟩] = [5, 5] := by
  refine ⟨⟨by decide, by decide⟩, ?_⟩
  exact (wheel_straight_five_high _ (by decide) (by decide) (by decide)).1

/-! ### Parsing (Claim C8) -/

/-- Counterexample to Claim C8: the malformed string "ZZ" (unrecognized
rank character) is not rejected: `parseHand` returns a nonempty hand whose
cards are not valid cards, i.e. malformed cards are passed downstream and
no error is reported. -/
theorem parseHand_no_validation_cex :
    parseHand ['Z', 'Z'] ≠ []
    ∧ ¬ (∀ c ∈ parseHand ['Z', 'Z'], validCard c) := by
  decide

/-- Claim C8 (amended): `parseHand` performs no character validation and
reports no error: any 2- or 3-character string yields exactly two cards
whose rank characters are copied verbatim from the input (so unrecognized
characters flow downstream), and a string of any other length silently
yields the empty hand. -/
theorem parseHand_amended (s : List Char) :
    (parseHand s).map (fun c => c.rank)
        = (if s.length = 2 ∨ s.length = 3 then s.take 2 else [])
    ∧ (parseHand s).length = (if s.length = 2 ∨ s.length = 3 then 2 else 0) := by
  by_cases h2 : s.length = 2
  · obtain ⟨a, b, rfl⟩ := List.length_eq_two.mp h2
    simp [parseHand]
  · by_cases h3 : s.length = 3
    · obtain ⟨a, b, c, rfl⟩ := List.length_eq_three.mp h3
      by_cases hs : c.toLower = 's'
      · simp [parseHand, hs]
      · simp [parseHand, hs]
    · simp [parseHand, h2, h3]

/-! ### Deck construction (Claims C6, C7) -/

theorem fullDeck_nodup : fullDeck.Nodup := by decide

theorem fullDeck_length : fullDeck.length = 52 := by decide

theorem buildDeck_nodup (exclude : List Card) : (buildDeck exclude).Nodup :=
  fullDeck_nodup.filter _

theorem mem_buildDeck {c : Card} {exclude : List Card} :
    c ∈ buildDeck exclude ↔ c ∈ fullDeck ∧ c ∉ exclude := by
  unfold buildDeck
  rw [List.mem_filter]
  simp

theorem buildDeck_pair_length {c1 c2 : Card}
    (h1 : c1 ∈ fullDeck) (h2 : c2 ∈ fullDeck) (hne : c1 ≠ c2) :
    (buildDeck [c1, c2]).length = 50 := by
  have hsplit : buildDeck [c1, c2]
      = (fullDeck.filter fun c => c != c1).filter fun c => c != c2 := by
    unfold buildDeck
    rw [List.filter_filter]
    apply List.filter_congr
    intro a _
    by_cases hc1 : a = c1 <;> by_cases hc2 : a = c2 <;> simp [hc1, hc2]
  have he1 : fullDeck.filter (fun c => c != c1) = fullDeck.erase c1 :=
    (fullDeck_nodup.erase_eq_filter c1).symm
  have he2 : (fullDeck.erase c1).filter (fun c => c != c2) = (fullDeck.erase c1).erase c2 :=
    ((fullDeck_nodup.erase c1).erase_eq_filter c2).symm
  rw [hsplit, he1, he2]
  have hm1 : c2 ∈ fullDeck.erase c1 := (List.mem_erase_of_ne hne.symm).mpr h2
  rw [List.length_erase_of_mem hm1, List.length_erase_of_mem h1, fullDeck_length]

/-- Claim C6: for every exclusion list, `buildDeck` has no duplicates,
contains no excluded card, and contains exactly the 52 rank–suit
combinations not excluded; for two distinct valid hero cards the deck
has exactly 50 cards. -/
theorem buildDeck_spec (exclude : List Card) :
    (buildDeck exclude).Nodup
    ∧ (∀ c : Card, c ∈ buildDeck exclude ↔ c ∈ fullDeck ∧ c ∉ exclude)
    ∧ ∀ c1 c2 : Card, c1 ∈ fullDeck → c2 ∈ fullDeck → c1 ≠ c2 →
        (buildDeck [c1, c2]).length = 50 :=
  ⟨buildDeck_nodup exclude, fun _ => mem_buildDeck,
    fun _ _ h1 h2 hne => buildDeck_pair_length h1 h2 hne⟩

/-- Witness for Claim C6, at the hero hand A♥A♦. -/
theorem buildDeck_spec_witness :
    ((⟨'A', 'h'⟩ : Card) ∈ fullDeck ∧ (⟨'A', 'd'⟩ : Card) ∈ fullDeck
      ∧ (⟨'A', 'h'⟩ : Card) ≠ ⟨'A', 'd'⟩)
    ∧ (buildDeck [⟨'A', 'h'⟩, ⟨'A', 'd'⟩]).length = 50 :=
  ⟨⟨by decide, by decide, by decide⟩,
    (buildDeck_spec []).2.2 _ _ (by decide) (by decide) (by decide)⟩

/-- Claim C7: in a trial whose shuffled deck is a permutation of
`buildDeck heroHand` for a valid two-card hero hand, the 2 opponent cards
and the 5 board cards exist, the 9 cards hero ++ opponent ++ board have
no duplicate, and the hero 7-card set and opponent 7-card set intersect
exactly in the board. -/
theorem trial_cards_disjoint (heroHand d : List Card)
    (hv : validHand heroHand) (hd : d.Perm (buildDeck heroHand)) :
    (d.take 2).length = 2
    ∧ ((d.drop 2).take 5).length = 5
    ∧ (heroHand ++ (d.take 2 ++ (d.drop 2).take 5)).Nodup
    ∧ ∀ c : Card,
        (c ∈ heroHand ++ (d.drop 2).take 5 ∧ c ∈ d.take 2 ++ (d.drop 2).take 5)
        ↔ c ∈ (d.drop 2).take 5 := by
  obtain ⟨hlen2, hnd2, hval2⟩ := hv
  obtain ⟨c1, c2, rfl⟩ := List.length_eq_two.mp hlen2
  have hne : c1 ≠ c2 := by
    intro h
    rw [h] at hnd2
    simp at hnd2
  have hdlen : d.length = 50 := by
    rw [hd.length_eq]
    exact buildDeck_pair_length (hval2 c1 (by simp)) (hval2 c2 (by simp)) hne
  have hdnd : d.Nodup := hd.nodup_iff.mpr (buildDeck_nodup _)
  have htake7 : d.take 2 ++ (d.drop 2).take 5 = d.take 7 := (List.take_add d 2 5).symm
  have htake7nd : (d.take 7).Nodup := hdnd.sublist (List.take_sublist 7 d)
  have hnotmem : ∀ c ∈ [c1, c2], c ∉ d := by
    intro c hc hcd
    have := mem_buildDeck.mp (hd.mem_iff.mp hcd)
    exact this.2 hc
  have hdisj : List.Disjoint [c1, c2] (d.take 7) := by
    intro c hc hc7
    exact hnotmem c hc ((List.take_sublist 7 d).mem hc7)
  have hnodup9 : ([c1, c2] ++ (d.take 2 ++ (d.drop 2).take 5)).Nodup := by
    rw [htake7]
    exact hnd2.append htake7nd hdisj
  refine ⟨?_, ?_, hnodup9, ?_⟩
  · rw [List.length_take, hdlen]
    decide
  · rw [List.length_take, List.length_drop, hdlen]
    decide
  · intro c
    constructor
    · rintro ⟨hh, ho⟩
      rcases List.mem_append.mp hh with hh1 | hh1
      · exfalso
        apply hnotmem c hh1
        rcases List.mem_append.mp ho with ho1 | ho1
        · exact (List.take_sublist 2 d).mem ho1
        · exact ((List.take_sublist 5 _).trans (List.drop_sublist 2 d)).mem ho1
      · exact hh1
    · intro hb
      exact ⟨List.mem_append_right _ hb, List.mem_append_right _ hb⟩

/-- Witness for Claim C7: the hero hand A♥A♦ with the identity shuffle. -/
theorem trial_cards_disjoint_witness :
    (validHand [⟨'A', 'h'⟩, ⟨'A', 'd'⟩]
      ∧ (buildDeck [⟨'A', 'h'⟩, ⟨'A', 'd'⟩]).Perm (buildDeck [⟨'A', 'h'⟩, ⟨'A', 'd'⟩]))
    ∧ ((buildDeck [⟨'A', 'h'⟩, ⟨'A', 'd'⟩]).take 2).length = 2 :=
  ⟨⟨by decide, List.Perm.refl _⟩,
    (trial_cards_disjoint _ _ (by decide) (List.Perm.refl _)).1⟩

/-! ### Frequency-table facts -/

theorem countPairs_entry {values : List Int} {x : Int × Int}
    (hx : x ∈ countPairs values) :
    x.1 = (values.count x.2 : Int) ∧ x.2 ∈ values := by
  have hx' := (countPairs_perm values).mem_iff.mp hx
  obtain ⟨v, hv, rfl⟩ := List.mem_map.mp hx'
  exact ⟨rfl, mem_sortAscDedup.mp hv⟩

theorem countPairs_length (values : List Int) :
    (countPairs values).length = (sortAscDedup values).length := by
  rw [(countPairs_perm values).length_eq, List.length_map]

theorem countPairs_ne_nil {values : List Int} (h : values ≠ []) :
    countPairs values ≠ [] := by
  intro hnil
  apply h
  have h1 : (countPairs values).length = 0 := by rw [hnil]; rfl
  rw [countPairs_length] at h1
  have h2 : ∀ a, a ∉ values := by
    intro a ha
    have : a ∈ sortAscDedup values := mem_sortAscDedup.mpr ha
    rw [List.length_eq_zero.mp h1] at this
    exact absurd this (List.not_mem_nil a)
  cases values with
  | nil => rfl
  | cons x xs => exact absurd (List.mem_cons_self x xs) (h2 x)

theorem countPairs_snd_nodup (values : List Int) :
    ((countPairs values).map Prod.snd).Nodup := by
  have hperm := (countPairs_perm values).map Prod.snd
  rw [List.map_map] at hperm
  have hid : ((sortAscDedup values).map
      (Prod.snd ∘ fun v => ((values.count v : Int), v))) = sortAscDedup values :=
    (List.map_congr_left fun a _ => rfl).trans (List.map_id _)
  rw [hid] at hperm
  exact hperm.nodup_iff.mpr (sortAscDedup_nodup values)

theorem getD_mem {α : Type} {l : List α} {i : Nat} (d : α) (h : i < l.length) :
    l.getD i d ∈ l := by
  induction l generalizing i with
  | nil => exact absurd h (by simp)
  | cons x xs ih =>
    cases i with
    | zero => exact List.mem_cons_self x xs
    | succ n =>
      rw [List.getD_cons_succ]
      exact List.mem_cons_of_mem x (ih (Nat.lt_of_succ_lt_succ h))

theorem count_add_count_le (l : List Int) (p q : Int) (hpq : p ≠ q) :
    l.count p + l.count q ≤ l.length := by
  induction l with
  | nil => simp
  | cons x xs ih =>
    rw [List.length_cons]
    by_cases hp : x = p
    · subst hp
      rw [List.count_cons_self, List.count_cons_of_ne (Ne.symm hpq)]
      omega
    · by_cases hq : x = q
      · subst hq
        rw [List.count_cons_self, List.count_cons_of_ne hpq]
        omega
      · rw [List.count_cons_of_ne (Ne.symm hp), List.count_cons_of_ne (Ne.symm hq)]
        omega

theorem filter_ne_length (l : List Int) (q : Int) :
    (l.filter fun v => decide (v ≠ q)).length = l.length - l.count q := by
  induction l with
  | nil => rfl
  | cons x xs ih =>
    have hcle := List.count_le_length q xs
    by_cases hx : x = q
    · subst hx
      have h1 : (x :: xs).filter (fun v => decide (v ≠ x)) = xs.filter fun v => decide (v ≠ x) := by
        simp [List.filter_cons]
      rw [h1, ih, List.count_cons_self, List.length_cons]
      omega
    · have h1 : (x :: xs).filter (fun v => decide (v ≠ q))
          = x :: (xs.filter fun v => decide (v ≠ q)) := by
        simp [List.filter_cons, hx]
      rw [h1, List.length_cons, ih, List.count_cons_of_ne (Ne.symm hx), List.length_cons]
      omega

theorem filter_ne2_length (l : List Int) (p q : Int) (hpq : p ≠ q) :
    (l.filter fun v => decide (v ≠ p ∧ v ≠ q)).length
      = l.length - l.count p - l.count q := by
  induction l with
  | nil => rfl
  | cons x xs ih =>
    have hadd := count_add_count_le xs p q hpq
    by_cases hp : x = p
    · subst hp
      have h1 : (x :: xs).filter (fun v => decide (v ≠ x ∧ v ≠ q))
          = xs.filter fun v => decide (v ≠ x ∧ v ≠ q) := by
        simp [List.filter_cons]
      rw [h1, ih, List.count_cons_self, List.count_cons_of_ne (Ne.symm hpq), List.length_cons]
      omega
    · by_cases hq : x = q
      · subst hq
        have h1 : (x :: xs).filter (fun v => decide (v ≠ p ∧ v ≠ x))
            = xs.filter fun v => decide (v ≠ p ∧ v ≠ x) := by
          simp [List.filter_cons]
        rw [h1, ih, List.count_cons_self, List.count_cons_of_ne (Ne.symm hp), List.length_cons]
        omega
      · have h1 : (x :: xs).filter (fun v => decide (v ≠ p ∧ v ≠ q))
            = x :: (xs.filter fun v => decide (v ≠ p ∧ v ≠ q)) := by
          simp [List.filter_cons, hp, hq]
        rw [h1, List.length_cons, ih, List.count_cons_of_ne (Ne.symm hp),
          List.count_cons_of_ne (Ne.symm hq), List.length_cons]
        omega

theorem evalBody_length_aux (values : List Int) (fl : Bool) (h5 : values.length = 5) :
    (evalBody values fl).length = lenOfCat ((evalBody values fl).headD 0) := by
  have hne : values ≠ [] := by
    intro h
    rw [h] at h5
    exact absurd h5 (by decide)
  obtain ⟨x0, cpt, hcp⟩ : ∃ x0 t, countPairs values = x0 :: t := by
    cases hc : countPairs values with
    | nil => exact absurd hc (countPairs_ne_nil hne)
    | cons a t => exact ⟨a, t, rfl⟩
  have hx0 := @countPairs_entry values x0 (by rw [hcp]; exact List.mem_cons_self _ _)
  simp only [evalBody, hcp]
  simp only [List.getD_cons_zero]
  split
  · norm_num [lenOfCat]
  split
  · rename_i h4
    have hcnt : values.count x0.2 = 4 := by
      have := hx0.1.symm.trans h4
      exact_mod_cast this
    have hflen : (values.filter fun v => decide (v ≠ x0.2)).length = 1 := by
      rw [filter_ne_length, h5, hcnt]
    rw [List.length_append, List.length_take, hflen]
    norm_num [lenOfCat]
  split
  · norm_num [lenOfCat]
  split
  · rw [List.length_cons, h5]
    norm_num [lenOfCat]
  split
  · norm_num [lenOfCat]
  split
  · rename_i h3
    have hcnt : values.count x0.2 = 3 := by
      have := hx0.1.symm.trans h3
      exact_mod_cast this
    have hflen : (values.filter fun v => decide (v ≠ x0.2)).length = 2 := by
      rw [filter_ne_length, h5, hcnt]
    rw [List.length_append, hflen]
    norm_num [lenOfCat]
  split
  · rename_i htp
    obtain ⟨h2a, hlen2, h2b⟩ := htp
    cases cpt with
    | nil => simp at hlen2
    | cons y rest =>
      have hy := @countPairs_entry values y
        (by rw [hcp]; exact List.mem_cons_of_mem _ (List.mem_cons_self _ _))
      have hgd1 : (x0 :: y :: rest).getD 1 (0, 0) = y := rfl
      rw [hgd1] at h2b
      rw [hgd1]
      have hcnt0 : values.count x0.2 = 2 := by
        have := hx0.1.symm.trans h2a
        exact_mod_cast this
      have hcnt1 : values.count y.2 = 2 := by
        have := hy.1.symm.trans h2b
        exact_mod_cast this
      have hne2 : x0.2 ≠ y.2 := by
        have hnd := countPairs_snd_nodup values
        rw [hcp, List.map_cons, List.map_cons, List.nodup_cons] at hnd
        intro h
        exact hnd.1 (h ▸ List.mem_cons_self _ _)
      have hflen : (values.filter fun v => decide (v ≠ x0.2 ∧ v ≠ y.2)).length = 1 := by
        rw [filter_ne2_length _ _ _ hne2, h5, hcnt0, hcnt1]
      rw [List.length_append, List.length_take, hflen]
      norm_num [lenOfCat]
  split
  · rename_i h2
    have hcnt : values.count x0.2 = 2 := by
      have := hx0.1.symm.trans h2
      exact_mod_cast this
    have hflen : (values.filter fun v => decide (v ≠ x0.2)).length = 3 := by
      rw [filter_ne_length, h5, hcnt]
    rw [List.length_append, hflen]
    norm_num [lenOfCat]
  · rw [List.length_cons, h5]
    norm_num [lenOfCat]

/-- Claim C10: for every valid duplicate-free 5-card hand, the length of
the hand value is a function of the leading category element alone
(9 or 5 → 2 elements, 8 or 7 → 3, 4 or 3 → 4, 2 → 5, 6 or 1 → 6); hence
two hand values of equal category have equal length and the lexicographic
comparison never compares a strict prefix against a longer tuple. -/
theorem handValue_length_of_category (cards : List Card)
    (h5 : cards.length = 5) (hnd : cards.Nodup) (hv : ∀ c ∈ cards, validCard c) :
    (evaluate5CardHand cards).length = lenOfCat ((evaluate5CardHand cards).headD 0)
    ∧ ∀ cards2 : List Card, cards2.length = 5 → cards2.Nodup →
        (∀ c ∈ cards2, validCard c) →
        (evaluate5CardHand cards2).headD 0 = (evaluate5CardHand cards).headD 0 →
        (evaluate5CardHand cards2).length = (evaluate5CardHand cards).length := by
  have hmain : ∀ cs : List Card, cs.length = 5 →
      (evaluate5CardHand cs).length = lenOfCat ((evaluate5CardHand cs).headD 0) := by
    intro cs hcs
    have hlen : (sortDesc (cs.map fun c => rankValue c.rank)).length = 5 := by
      rw [sortDesc_length, List.length_map, hcs]
    exact evalBody_length_aux _ _ hlen
  refine ⟨hmain cards h5, ?_⟩
  intro cards2 h5b _ _ hcat
  rw [hmain cards h5, hmain cards2 h5b, hcat]

/-- Witness for Claim C10: a concrete full house (category 7, 3
elements). -/
theorem handValue_length_of_category_witness :
    ([(⟨'2', 'h'⟩ : Card), ⟨'2', 'd'⟩, ⟨'2', 'c'⟩, ⟨'5', 'h'⟩, ⟨'5', 'd'⟩].length = 5
      ∧ [(⟨'2', 'h'⟩ : Card), ⟨'2', 'd'⟩, ⟨'2', 'c'⟩, ⟨'5', 'h'⟩, ⟨'5', 'd'⟩].Nodup)
    ∧ (evaluate5CardHand [⟨'2', 'h'⟩, ⟨'2', 'd'⟩, ⟨'2', 'c'⟩, ⟨'5', 'h'⟩, ⟨'5', 'd'⟩]).length
        = lenOfCat ((evaluate5CardHand
            [⟨'2', 'h'⟩, ⟨'2', 'd'⟩, ⟨'2', 'c'⟩, ⟨'5', 'h'⟩, ⟨'5', 'd'⟩]).headD 0) :=
  ⟨⟨by decide, by decide⟩,
    (handValue_length_of_category [⟨'2', 'h'⟩, ⟨'2', 'd'⟩, ⟨'2', 'c'⟩, ⟨'5', 'h'⟩, ⟨'5', 'd'⟩]
      (by decide) (by decide) (by decide)).1⟩

/-- Claim C9: a 5-card duplicate-free hand holding exactly one pair of
rank `p` and singleton kickers `a > b > c` (so no trips or quads), with no
flush, evaluates to `[2, p, a, b, c]`: category 2, the pair rank, then the
kickers in descending order; consequently one-pair hands with equal pair
rank order by their kickers, e.g. A,A,K,Q,J beats A,A,2,3,4. -/
theorem eval_one_pair (cards : List Card) (p a b c : Int)
    (hperm : (cards.map fun x => rankValue x.rank).Perm [p, p, a, b, c])
    (hba : b < a) (hcb : c < b) (hpa : p ≠ a) (hpb : p ≠ b) (hpc : p ≠ c)
    (hnd : cards.Nodup)
    (hfl : ¬ suitsAllEqual (cards.map fun x => x.suit)) :
    evaluate5CardHand cards = [2, p, a, b, c]
    ∧ isBetterHand
        (evaluate5CardHand [⟨'A', 'h'⟩, ⟨'A', 'd'⟩, ⟨'K', 'h'⟩, ⟨'Q', 'h'⟩, ⟨'J', 'h'⟩])
        (evaluate5CardHand [⟨'A', 'h'⟩, ⟨'A', 'd'⟩, ⟨'2', 'h'⟩, ⟨'3', 'h'⟩, ⟨'4', 'd'⟩])
        = true := by
  refine ⟨?_, by decide⟩
  have hlen : cards.length = 5 := by
    have := hperm.length_eq
    rwa [List.length_map] at this
  have hab : a ≠ b := ne_of_gt hba
  have hbc : b ≠ c := ne_of_gt hcb
  have hac : a ≠ c := ne_of_gt (hcb.trans hba)
  have hvperm : (sortDesc (cards.map fun x => rankValue x.rank)).Perm [p, p, a, b, c] :=
    (sortDesc_perm _).trans hperm
  have hcount : ∀ z : Int,
      (sortDesc (cards.map fun x => rankValue x.rank)).count z = [p, p, a, b, c].count z :=
    fun z => hvperm.count_eq z
  have hcntp : (sortDesc (cards.map fun x => rankValue x.rank)).count p = 2 := by
    rw [hcount, List.count_cons_self, List.count_cons_self, List.count_cons_of_ne hpa,
      List.count_cons_of_ne hpb, List.count_cons_of_ne hpc, List.count_nil]
  have hcnta : (sortDesc (cards.map fun x => rankValue x.rank)).count a = 1 := by
    rw [hcount, List.count_cons_of_ne (Ne.symm hpa), List.count_cons_of_ne (Ne.symm hpa),
      List.count_cons_self, List.count_cons_of_ne hab, List.count_cons_of_ne hac,
      List.count_nil]
  have hcntb : (sortDesc (cards.map fun x => rankValue x.rank)).count b = 1 := by
    rw [hcount, List.count_cons_of_ne (Ne.symm hpb), List.count_cons_of_ne (Ne.symm hpb),
      List.count_cons_of_ne (Ne.symm hab), List.count_cons_self, List.count_cons_of_ne hbc,
      List.count_nil]
  have hcntc : (sortDesc (cards.map fun x => rankValue x.rank)).count c = 1 := by
    rw [hcount, List.count_cons_of_ne (Ne.symm hpc), List.count_cons_of_ne (Ne.symm hpc),
      List.count_cons_of_ne (Ne.symm hac), List.count_cons_of_ne (Ne.symm hbc),
      List.count_cons_self, List.count_nil]
  have humem : ∀ z : Int,
      z ∈ sortAscDedup (sortDesc (cards.map fun x => rankValue x.rank)) ↔ z ∈ [p, a, b, c] := by
    intro z
    rw [mem_sortAscDedup, hvperm.mem_iff]
    simp only [List.mem_cons, List.not_mem_nil, or_false]
    tauto
  have hund := sortAscDedup_nodup (sortDesc (cards.map fun x => rankValue x.rank))
  have hulen : (sortAscDedup (sortDesc (cards.map fun x => rankValue x.rank))).length ≤ 4 := by
    have hsub := List.subperm_of_subset hund fun z hz => (humem z).mp hz
    have := hsub.length_le
    simpa using this
  have hscan : straightScan (sortAscDedup (sortDesc (cards.map fun x => rankValue x.rank)))
      = (false, 0) := by
    unfold straightScan
    rw [if_neg]
    omega
  have hwheelf : ¬((14 : Int) ∈ sortAscDedup (sortDesc (cards.map fun x => rankValue x.rank))
      ∧ (2 : Int) ∈ sortAscDedup (sortDesc (cards.map fun x => rankValue x.rank))
      ∧ (3 : Int) ∈ sortAscDedup (sortDesc (cards.map fun x => rankValue x.rank))
      ∧ (4 : Int) ∈ sortAscDedup (sortDesc (cards.map fun x => rankValue x.rank))
      ∧ (5 : Int) ∈ sortAscDedup (sortDesc (cards.map fun x => rankValue x.rank))) := by
    rintro ⟨m14, m2, m3, m4, m5⟩
    have hsub : [(14 : Int), 2, 3, 4, 5]
        ⊆ sortAscDedup (sortDesc (cards.map fun x => rankValue x.rank)) := by
      intro z hz
      simp only [List.mem_cons, List.not_mem_nil, or_false] at hz
      rcases hz with rfl | rfl | rfl | rfl | rfl
      · exact m14
      · exact m2
      · exact m3
      · exact m4
      · exact m5
    have hsp := List.subperm_of_subset (by decide) hsub
    have := hsp.length_le
    simp at this
    omega
  have hstraight : straightInfo (sortAscDedup (sortDesc (cards.map fun x => rankValue x.rank)))
      = (false, 0) := by
    unfold straightInfo
    rw [hscan, if_neg]
    rintro ⟨_, hm⟩
    exact hwheelf hm
  have hnodup4 : ([p, a, b, c] : List Int).Nodup := by
    simp [hpa, hpb, hpc, hab, hac, hbc]
  have huperm : (sortAscDedup (sortDesc (cards.map fun x => rankValue x.rank))).Perm
      [p, a, b, c] := by
    rw [List.perm_ext_iff_of_nodup hund hnodup4]
    exact humem
  have hcp : countPairs (sortDesc (cards.map fun x => rankValue x.rank))
      = [(2, p), (1, a), (1, b), (1, c)] := by
    apply countPairs_eq
    · have hm := huperm.map fun v =>
        (((sortDesc (cards.map fun x => rankValue x.rank)).count v : Int), v)
      refine hm.trans ?_
      rw [List.map_cons, List.map_cons, List.map_cons, List.map_cons, List.map_nil,
        hcntp, hcnta, hcntb, hcntc]
      norm_num
    · refine List.Pairwise.cons ?_
        (List.Pairwise.cons ?_ (List.Pairwise.cons ?_ (List.pairwise_singleton _ _)))
      · intro x hx
        unfold cmpCnt
        rcases List.mem_cons.mp hx with rfl | hx
        · left
          norm_num
        rcases List.mem_cons.mp hx with rfl | hx
        · left
          norm_num
        · rw [List.mem_singleton.mp hx]
          left
          norm_num
      · intro x hx
        unfold cmpCnt
        rcases List.mem_cons.mp hx with rfl | hx
        · right
          exact ⟨rfl, le_of_lt hba⟩
        · rw [List.mem_singleton.mp hx]
          right
          exact ⟨rfl, le_of_lt (hcb.trans hba)⟩
      · intro x hx
        unfold cmpCnt
        rw [List.mem_singleton.mp hx]
        right
        exact ⟨rfl, le_of_lt hcb⟩
  have hflush : isFlushB (cards.map fun x => x.suit) = false :=
    isFlushB_false (suits_length_of_five hlen) hfl
  have hsorted3 : List.Sorted (· ≥ ·) ([a, b, c] : List Int) := by
    refine List.Pairwise.cons ?_ (List.Pairwise.cons ?_ (List.pairwise_singleton _ _))
    · intro z hz
      rcases List.mem_cons.mp hz with rfl | hz2
      · exact le_of_lt hba
      · rw [List.mem_singleton.mp hz2]
        exact le_of_lt (hcb.trans hba)
    · intro z hz
      rw [List.mem_singleton.mp hz]
      exact le_of_lt hcb
  have hflitperm : ((sortDesc (cards.map fun x => rankValue x.rank)).filter
      (fun v => decide (v ≠ p))).Perm [a, b, c] := by
    refine (hvperm.filter _).trans ?_
    rw [show List.filter (fun v => decide (v ≠ p)) [p, p, a, b, c] = [a, b, c] by
      simp [List.filter_cons, Ne.symm hpa, Ne.symm hpb, Ne.symm hpc]]
  have hfilter : (sortDesc (cards.map fun x => rankValue x.rank)).filter
      (fun v => decide (v ≠ p)) = [a, b, c] :=
    List.eq_of_perm_of_sorted hflitperm
      (List.Pairwise.sublist (List.filter_sublist _) (sortDesc_sorted _)) hsorted3
  show evalBody (sortDesc (cards.map fun x => rankValue x.rank))
      (isFlushB (cards.map fun x => x.suit)) = [2, p, a, b, c]
  rw [hflush]
  simp only [evalBody, hstraight, hcp]
  have hg0 : ([((2 : Int), p), (1, a), (1, b), (1, c)]).getD 0 ((0 : Int), (0 : Int))
      = (2, p) := rfl
  have hg1 : ([((2 : Int), p), (1, a), (1, b), (1, c)]).getD 1 ((0 : Int), (0 : Int))
      = (1, a) := rfl
  rw [hg0, hg1]
  dsimp only
  rw [hfilter]
  norm_num

/-- Witness for Claim C9: the concrete hand A♥A♦K♥Q♥J♥ with pair rank 14
and kickers 13 > 12 > 11. -/
theorem eval_one_pair_witness :
    ((([(⟨'A', 'h'⟩ : Card), ⟨'A', 'd'⟩, ⟨'K', 'h'⟩, ⟨'Q', 'h'⟩, ⟨'J', 'h'⟩].map
          fun x => rankValue x.rank).Perm [14, 14, 13, 12, 11])
      ∧ (12 : Int) < 13 ∧ (11 : Int) < 12)
    ∧ evaluate5CardHand [⟨'A', 'h'⟩, ⟨'A', 'd'⟩, ⟨'K', 'h'⟩, ⟨'Q', 'h'⟩, ⟨'J', 'h'⟩]
        = [2, 14, 13, 12, 11] :=
  ⟨⟨by decide, by decide, by decide⟩,
    (eval_one_pair [⟨'A', 'h'⟩, ⟨'A', 'd'⟩, ⟨'K', 'h'⟩, ⟨'Q', 'h'⟩, ⟨'J', 'h'⟩]
      14 13 12 11 (by decide) (by decide) (by decide) (by decide) (by decide) (by decide)
      (by decide) (by decide)).1⟩

/-! ### Best-of-7 selection (Claim C3) -/

theorem combos5of7_perm : combos5of7.Perm (List.sublistsLen 5 (List.range 7)) := by
  decide

theorem sublistsLen_map_eq {α β : Type} (f : α → β) :
    ∀ (n : Nat) (l : List α),
      List.sublistsLen n (l.map f) = (List.sublistsLen n l).map (List.map f) := by
  intro n l
  induction l generalizing n with
  | nil =>
    cases n with
    | zero => simp
    | succ m => simp
  | cons a l ih =>
    cases n with
    | zero => simp
    | succ m =>
      rw [List.map_cons, List.sublistsLen_succ_cons, List.sublistsLen_succ_cons, ih, ih,
        List.map_append, List.map_map, List.map_map]
      congr 1

theorem map_getD_range (l : List Card) :
    (List.range l.length).map (fun i => l.getD i default) = l := by
  induction l with
  | nil => rfl
  | cons a l ih =>
    rw [List.length_cons, List.range_succ_eq_map, List.map_cons, List.map_map]
    congr 1

/-- Claim C3: the five nested loops enumerate each of the C(7,5) = 21
five-element index subsets of {0..6} exactly once, and for 7 distinct
cards `bestHandValue` returns the maximum of `evaluate5CardHand` over all
5-card subsets under the lexicographic hand-value order: it is attained
on some 5-card sublist and beaten by none. -/
theorem bestHandValue_max (seven : List Card) (h7 : seven.length = 7) (hnd : seven.Nodup) :
    (combos5of7.Perm (List.sublistsLen 5 (List.range 7)) ∧ combos5of7.length = 21)
    ∧ (∃ s, s.Sublist seven ∧ s.length = 5 ∧ bestHandValue seven = evaluate5CardHand s)
    ∧ ∀ s, s.Sublist seven → s.length = 5 →
        lexLt (bestHandValue seven) (evaluate5CardHand s) = false := by
  have hperm := combos5of7_perm
  have hseven : (List.range 7).map (fun i => seven.getD i default) = seven := by
    rw [← h7]
    exact map_getD_range seven
  obtain ⟨hmem, hall⟩ := bestHandValue_mem_and_max seven
  have hmap : (List.sublistsLen 5 (List.range 7)).map (List.map fun i => seven.getD i default)
      = List.sublistsLen 5 seven := by
    rw [← sublistsLen_map_eq, hseven]
  refine ⟨⟨hperm, by decide⟩, ?_, ?_⟩
  · obtain ⟨c, hc, hceq⟩ := hmem
    have hc' : c ∈ List.sublistsLen 5 (List.range 7) := hperm.mem_iff.mp hc
    obtain ⟨hsub, hlen⟩ := List.mem_sublistsLen.mp hc'
    refine ⟨c.map fun t => seven.getD t default, ?_, ?_, hceq⟩
    · have := hsub.map fun t => seven.getD t default
      rwa [hseven] at this
    · rw [List.length_map, hlen]
  · intro s hsub hlen
    have hs' : s ∈ List.sublistsLen 5 seven := List.mem_sublistsLen.mpr ⟨hsub, hlen⟩
    rw [← hmap] at hs'
    obtain ⟨c, hc, hceq⟩ := List.mem_map.mp hs'
    have hc2 : c ∈ combos5of7 := hperm.mem_iff.mpr hc
    have hres := hall c hc2
    rw [hceq] at hres
    exact hres

/-- Witness for Claim C3: a concrete 7-card list containing a royal
flush. -/
theorem bestHandValue_max_witness :
    ([(⟨'A', 'h'⟩ : Card), ⟨'K', 'h'⟩, ⟨'Q', 'h'⟩, ⟨'J', 'h'⟩, ⟨'T', 'h'⟩, ⟨'2', 'd'⟩,
        ⟨'7', 'c'⟩].length = 7
      ∧ [(⟨'A', 'h'⟩ : Card), ⟨'K', 'h'⟩, ⟨'Q', 'h'⟩, ⟨'J', 'h'⟩, ⟨'T', 'h'⟩, ⟨'2', 'd'⟩,
          ⟨'7', 'c'⟩].Nodup)
    ∧ ∃ s, s.Sublist [(⟨'A', 'h'⟩ : Card), ⟨'K', 'h'⟩, ⟨'Q', 'h'⟩, ⟨'J', 'h'⟩, ⟨'T', 'h'⟩,
          ⟨'2', 'd'⟩, ⟨'7', 'c'⟩]
        ∧ s.length = 5
        ∧ bestHandValue [⟨'A', 'h'⟩, ⟨'K', 'h'⟩, ⟨'Q', 'h'⟩, ⟨'J', 'h'⟩, ⟨'T', 'h'⟩,
            ⟨'2', 'd'⟩, ⟨'7', 'c'⟩] = evaluate5CardHand s :=
  ⟨⟨by decide, by decide⟩,
    (bestHandValue_max [⟨'A', 'h'⟩, ⟨'K', 'h'⟩, ⟨'Q', 'h'⟩, ⟨'J', 'h'⟩, ⟨'T', 'h'⟩,
        ⟨'2', 'd'⟩, ⟨'7', 'c'⟩] (by decide) (by decide)).2.1⟩

/-! ### The sampler (Claims C4, C5) -/

theorem count_outcomes (outs : List Outcome) :
    outs.count .win + outs.count .tie + outs.count .loss = outs.length := by
  induction outs with
  | nil => rfl
  | cons o os ih =>
    cases o <;> simp [List.count_cons] <;> omega

theorem trialOutcome_cases (heroHand d : List Card) :
    (trialOutcome heroHand d = .win ↔ isBetterHand (heroValOf heroHand d) (oppValOf d) = true)
    ∧ (trialOutcome heroHand d = .tie ↔ heroValOf heroHand d = oppValOf d)
    ∧ (trialOutcome heroHand d = .loss
        ↔ (isBetterHand (heroValOf heroHand d) (oppValOf d) = false
            ∧ heroValOf heroHand d ≠ oppValOf d)) := by
  unfold trialOutcome isBetterHand
  by_cases hw : lexLt (oppValOf d) (heroValOf heroHand d) = true
  · rw [if_pos hw]
    refine ⟨by simp [hw], ?_, ?_⟩
    · constructor
      · intro h
        exact absurd h (by simp)
      · intro he
        rw [he, lexLt_irrefl] at hw
        exact absurd hw (by simp)
    · constructor
      · intro h
        exact absurd h (by simp)
      · rintro ⟨hf, _⟩
        rw [hw] at hf
        exact absurd hf (by simp)
  · have hwf : lexLt (oppValOf d) (heroValOf heroHand d) = false :=
      Bool.eq_false_iff.mpr hw
    rw [if_neg hw]
    by_cases he : heroValOf heroHand d = oppValOf d
    · rw [if_pos he]
      refine ⟨?_, by simp [he], ?_⟩
      · constructor
        · intro h
          exact absurd h (by simp)
        · intro hb
          rw [hwf] at hb
          exact absurd hb (by simp)
      · constructor
        · intro h
          exact absurd h (by simp)
        · rintro ⟨_, hne⟩
          exact absurd he hne
    · rw [if_neg he]
      exact ⟨by simp [hwf], by simp [he], by simp [hwf, he]⟩

/-- Claim C4: with a valid hero hand and N ≥ 1 trial shuffles, every trial
is classified as exactly one of win (hero's best hand value
lexicographically greater), tie (equal values) or loss (otherwise), the
three tallies sum to N, and `simulate` returns (wins + 0.5·ties)/N. -/
theorem simulate_tally (heroHand : List Card) (shuffles : List (List Card)) (N : Nat)
    (hv : validHand heroHand) (hN : shuffles.length = N) (hN1 : 1 ≤ N)
    (hperm : ∀ d ∈ shuffles, d.Perm (buildDeck heroHand)) :
    ((shuffles.map (trialOutcome heroHand)).count .win
      + (shuffles.map (trialOutcome heroHand)).count .tie
      + (shuffles.map (trialOutcome heroHand)).count .loss = N)
    ∧ simulate heroHand shuffles
        = (((shuffles.map (trialOutcome heroHand)).count .win : ℚ)
            + (1 / 2) * ((shuffles.map (trialOutcome heroHand)).count .tie : ℚ)) / (N : ℚ)
    ∧ ∀ d ∈ shuffles,
        (trialOutcome heroHand d = .win
          ↔ isBetterHand (heroValOf heroHand d) (oppValOf d) = true)
        ∧ (trialOutcome heroHand d = .tie ↔ heroValOf heroHand d = oppValOf d)
        ∧ (trialOutcome heroHand d = .loss
            ↔ (isBetterHand (heroValOf heroHand d) (oppValOf d) = false
                ∧ heroValOf heroHand d ≠ oppValOf d)) := by
  have htot : (shuffles.map (trialOutcome heroHand)).count .win
      + (shuffles.map (trialOutcome heroHand)).count .tie
      + (shuffles.map (trialOutcome heroHand)).count .loss = N := by
    rw [count_outcomes, List.length_map, hN]
  refine ⟨htot, ?_, fun d _ => trialOutcome_cases heroHand d⟩
  simp only [simulate]
  rw [htot]

/-- Witness for Claim C4: hero A♥A♦ with the single unshuffled deck. -/
theorem simulate_tally_witness :
    (validHand [⟨'A', 'h'⟩, ⟨'A', 'd'⟩]
      ∧ [buildDeck [⟨'A', 'h'⟩, ⟨'A', 'd'⟩]].length = 1
      ∧ (1 : Nat) ≤ 1)
    ∧ ([buildDeck [⟨'A', 'h'⟩, ⟨'A', 'd'⟩]].map
          (trialOutcome [⟨'A', 'h'⟩, ⟨'A', 'd'⟩])).count .win
        + ([buildDeck [⟨'A', 'h'⟩, ⟨'A', 'd'⟩]].map
            (trialOutcome [⟨'A', 'h'⟩, ⟨'A', 'd'⟩])).count .tie
        + ([buildDeck [⟨'A', 'h'⟩, ⟨'A', 'd'⟩]].map
            (trialOutcome [⟨'A', 'h'⟩, ⟨'A', 'd'⟩])).count .loss = 1 :=
  ⟨⟨by decide, rfl, le_refl 1⟩,
    (simulate_tally [⟨'A', 'h'⟩, ⟨'A', 'd'⟩] [buildDeck [⟨'A', 'h'⟩, ⟨'A', 'd'⟩]] 1
      (by decide) rfl (le_refl 1)
      (by
        intro d hd
        rw [List.mem_singleton.mp hd])).1⟩

/-- Claim C5: with a valid hero hand and N ≥ 1 trial shuffles, the equity
returned by `simulate` lies in [0, 1]. -/
theorem simulate_in_unit_interval (heroHand : List Card) (shuffles : List (List Card)) (N : Nat)
    (hv : validHand heroHand) (hN : shuffles.length = N) (hN1 : 1 ≤ N)
    (hperm : ∀ d ∈ shuffles, d.Perm (buildDeck heroHand)) :
    0 ≤ simulate heroHand shuffles ∧ simulate heroHand shuffles ≤ 1 := by
  unfold simulate
  set w := (shuffles.map (trialOutcome heroHand)).count .win with hw
  set t := (shuffles.map (trialOutcome heroHand)).count .tie with ht
  set l := (shuffles.map (trialOutcome heroHand)).count .loss with hl
  have htot : w + t + l = N := by
    rw [hw, ht, hl, count_outcomes, List.length_map, hN]
  have hpos : (0 : ℚ) < ((w + t + l : Nat) : ℚ) := by
    rw [htot]
    have : (1 : ℚ) ≤ (N : ℚ) := by exact_mod_cast hN1
    linarith
  constructor
  · apply div_nonneg _ (le_of_lt hpos)
    positivity
  · rw [div_le_one hpos]
    push_cast
    have h1 : (0 : ℚ) ≤ (t : ℚ) := by positivity
    have h2 : (0 : ℚ) ≤ (l : ℚ) := by positivity
    linarith

/-- Witness for Claim C5: hero A♥A♦ with a single unshuffled deck. -/
theorem simulate_in_unit_interval_witness :
    (validHand [⟨'A', 'h'⟩, ⟨'A', 'd'⟩]
      ∧ [buildDeck [⟨'A', 'h'⟩, ⟨'A', 'd'⟩]].length = 1
      ∧ (1 : Nat) ≤ 1)
    ∧ 0 ≤ simulate [⟨'A', 'h'⟩, ⟨'A', 'd'⟩] [buildDeck [⟨'A', 'h'⟩, ⟨'A', 'd'⟩]]
    ∧ simulate [⟨'A', 'h'⟩, ⟨'A', 'd'⟩] [buildDeck [⟨'A', 'h'⟩, ⟨'A', 'd'⟩]] ≤ 1 :=
  ⟨⟨by decide, rfl, le_refl 1⟩,
    simulate_in_unit_interval [⟨'A', 'h'⟩, ⟨'A', 'd'⟩] [buildDeck [⟨'A', 'h'⟩, ⟨'A', 'd'⟩]] 1
      (by decide) rfl (le_refl 1)
      (by
        intro d hd
        rw [List.mem_singleton.mp hd])⟩

end EquitySim
